import Mathlib

/-!
Shallow embedding of the nradix prefix trie (src/tree.go, package nradix).

The Go code stores nodes on the heap and links them with pointers; here the
heap is an explicit index-addressed store (a list of nodes that only grows),
and a pointer is an `Option Nat` index (`none` = Go `nil`).  Go `interface{}`
payloads are modelled by `IFace`: the untyped `nil`, the package error value
`ErrBadIP` (which `find` can return through the value channel), and an
arbitrary payload.

The Go loops iterate over `(i, bit)` byte/bit pairs, most-significant bit
first; that bit stream is produced once, up front, by `zipBits`, and the
loops recurse over it.  The zero-length address (on which the Go code would
index `key[0]` out of range and crash) is outside the modelled domain.
-/

set_option maxRecDepth 8000

namespace NRadix

/-- A Go `interface{}` value as stored in node value slots and returned by
`find`: the untyped `nil`, the package error `ErrBadIP`, or a payload. -/
inductive IFace (α : Type) where
  | vnil
  | errBadIP
  | payload (a : α)
deriving DecidableEq

/-- Go `value != nil` is a comparison of the interface against untyped nil. -/
def IFace.isNil {α : Type} : IFace α → Bool
  | .vnil => true
  | _ => false

/-- One trie node (`type node struct` in tree.go): child links, a parent
back-reference, and the payload slot. -/
structure Node (α : Type) where
  left : Option Nat
  right : Option Nat
  parent : Option Nat
  value : IFace α
deriving DecidableEq

/-- A node with all links and value cleared (Go zero value of `node`). -/
def blank {α : Type} : Node α := ⟨none, none, none, .vnil⟩

/-- The tree (`type Tree struct`): root pointer, free-list head, and the
current allocation chunk's length/capacity (`len(tree.alloc)`,
`cap(tree.alloc)`).  `store` is the modelled heap: every node ever
allocated, addressed by index; it only grows, so indices are stable, which
mirrors "nodes are never relocated after creation". -/
structure Tree (α : Type) where
  store : List (Node α)
  root : Nat
  free : Option Nat
  allocLen : Nat
  allocCap : Nat
deriving DecidableEq

/-- Dereference a node index (out-of-range reads, which cannot occur in
reachable trees, yield the zero node). -/
def getN {α : Type} (t : Tree α) (i : Nat) : Node α := t.store.getD i blank

/-- Update one node of the store in place (Go mutates the node a pointer
refers to; here the slot at its index is rewritten). -/
def updN {α : Type} (t : Tree α) (i : Nat) (f : Node α → Node α) : Tree α :=
  { t with store := t.store.modify f i }

def setValue {α : Type} (t : Tree α) (i : Nat) (v : IFace α) : Tree α :=
  updN t i fun nd => { nd with value := v }

def setLeft {α : Type} (t : Tree α) (i : Nat) (l : Option Nat) : Tree α :=
  updN t i fun nd => { nd with left := l }

def setRight {α : Type} (t : Tree α) (i : Nat) (r : Option Nat) : Tree α :=
  updN t i fun nd => { nd with right := r }

def setParent {α : Type} (t : Tree α) (i : Nat) (p : Option Nat) : Tree α :=
  updN t i fun nd => { nd with parent := p }

/-- `if key[i]&bit != 0 { node.right } else { node.left }`. -/
def step {α : Type} (t : Tree α) (n : Nat) (kb : Bool) : Option Nat :=
  if kb then (getN t n).right else (getN t n).left

/-- Link a new child on the branch selected by the key bit
(`node.right = next` / `node.left = next`). -/
def setChild {α : Type} (t : Tree α) (n : Nat) (kb : Bool) (c : Nat) : Tree α :=
  if kb then setRight t n (some c) else setLeft t n (some c)

/-- The MSB-first bits of one byte, the order in which
`bit := 0x80; bit >>= 1; ...` scans it. -/
def byteBits (b : Nat) : List Bool :=
  [b.testBit 7, b.testBit 6, b.testBit 5, b.testBit 4,
   b.testBit 3, b.testBit 2, b.testBit 1, b.testBit 0]

/-- The `(key[i]&bit, mask[i]&bit)` stream scanned by the Go loops:
key and mask bytes in lockstep, each byte MSB first. -/
def zipBits (key mask : List Nat) : List (Bool × Bool) :=
  ((key.zip mask).map fun p => (byteBits p.1).zip (byteBits p.2)).flatten

/-- tree.go `newnode`: pop the free list (clearing all prior links) if it is
non-empty, otherwise take a fresh zeroed slot, growing the chunk
(`make([]node, ln+200)[:1]`) when the current one is full.  Returns the new
tree and the index of the node handed out. -/
def newnode {α : Type} (t : Tree α) : Tree α × Nat :=
  match t.free with
  | some p =>
      -- release all prior links
      ({ t with free := (getN t p).right, store := t.store.set p blank }, p)
  | none =>
      if t.allocLen = t.allocCap then
        -- filled one row, make a bigger one
        ({ t with store := t.store ++ [blank],
                  allocLen := 1, allocCap := t.allocLen + 200 }, t.store.length)
      else
        ({ t with store := t.store ++ [blank],
                  allocLen := t.allocLen + 1 }, t.store.length)

/-- tree.go `NewTree`: a zeroed tree whose root is the first allocated node.
The `preallocate` argument is tested against zero but both branches return
the same tree. -/
def NewTree (α : Type) (preallocate : Int) : Tree α :=
  let t0 : Tree α := ⟨[], 0, none, 0, 0⟩
  let r := newnode t0
  let t : Tree α := { r.1 with root := r.2 }
  if preallocate = 0 then t else t

/-- The Go error values returned by the operations (`ErrNodeBusy`,
`ErrNotFound`, `ErrBadIP`) plus the distinct error produced by
`net.ParseCIDR` itself; `none` models a `nil` error return. -/
inductive GoErr where
  | nodeBusy
  | notFound
  | badIP
  | parseError
deriving DecidableEq

/-- Phase 1 of tree.go `insert` (lines 126-149): descend while the current
mask bit is set and a child exists.  Returns the last non-nil node reached,
the unconsumed bit pairs, and whether the walk stopped on a missing child
(`next == nil`); `false` means the walk used up the mask bits or the key
(so Go's `next != nil` holds after the loop). -/
def walkTo {α : Type} (t : Tree α) : Nat → List (Bool × Bool) → Nat × List (Bool × Bool) × Bool
  | n, [] => (n, [], false)
  | n, (kb, mb) :: rest =>
    if mb = false then (n, (kb, mb) :: rest, false)
    else
      match step t n kb with
      | none => (n, (kb, mb) :: rest, true)
      | some m => walkTo t m rest

/-- Phase 2 of tree.go `insert` (lines 158-174): create and link one node
per remaining mask-set bit, then store the value at the last node created
(or at the start node when no mask bit remains). -/
def grow {α : Type} : Tree α → Nat → List (Bool × Bool) → IFace α → Tree α
  | t, n, [], v => setValue t n v
  | t, n, (kb, mb) :: rest, v =>
    if mb = false then setValue t n v
    else
      let r := newnode t
      let t1 := setParent r.1 r.2 (some n)
      let t2 := setChild t1 n kb r.2
      grow t2 r.2 rest v

/-- tree.go `insert` (lines 121-177).  Width mismatch fails with `ErrBadIP`;
if the walk reaches a node, an occupied value slot fails with `ErrNodeBusy`
unless `overwrite`; otherwise the remaining path is created and the value
stored. -/
def insert {α : Type} (t : Tree α) (key mask : List Nat) (v : IFace α)
    (overwrite : Bool) : Option GoErr × Tree α :=
  if key.length ≠ mask.length then (some .badIP, t)
  else
    match walkTo t t.root (zipBits key mask) with
    | (n, _, false) =>
        if !(getN t n).value.isNil && !overwrite then (some .nodeBusy, t)
        else (none, setValue t n v)
    | (n, rest, true) => (none, grow t n rest v)

/-- Outcome of tree.go `delete`.  `panicNilParent` marks the execution in
which the trim loop evaluates `node.parent.right` with `node.parent == nil`
(a Go nil-pointer dereference); `fuelOut` is a model artifact for
parent-chain recursion on unreachable (cyclic) stores and never occurs in
the executions the theorems talk about. -/
inductive DelRes where
  | ok
  | errBadIP
  | errNotFound
  | panicNilParent
  | fuelOut
deriving DecidableEq

/-- The walk of tree.go `delete` (lines 184-199): follow key bits while the
mask bit is set, never creating nodes; `none` when the walk falls off the
tree (Go exits the loop with `node == nil`). -/
def delWalk {α : Type} (t : Tree α) : Option Nat → List (Bool × Bool) → Option Nat
  | none, _ => none
  | some n, [] => some n
  | some n, (kb, mb) :: rest =>
    if mb = false then some n
    else delWalk t (step t n kb) rest

/-- The trim loop of tree.go `delete` (lines 214-233): detach the node from
its parent, push it on the free list (threaded through `right`), and walk
upward recycling ancestors that are childless and valueless, stopping at a
still-needed ancestor or at the root.  Evaluating `node.parent.right` when
the starting node has no parent is the Go nil dereference. -/
def trim {α : Type} : Tree α → Nat → Nat → DelRes × Tree α
  | t, _, 0 => (.fuelOut, t)
  | t, n, fuel + 1 =>
    match (getN t n).parent with
    | none => (.panicNilParent, t)
    | some p =>
      let t1 := if (getN t p).right = some n then setRight t p none else setLeft t p none
      -- reserve this node for future use
      let t2 := setRight t1 n t1.free
      let t3 := { t2 with free := some n }
      -- move to parent, check if it is free of value and children
      if (getN t3 p).right.isSome || (getN t3 p).left.isSome || !(getN t3 p).value.isNil then
        (.ok, t3)
      else if (getN t3 p).parent = none then
        -- do not delete root node
        (.ok, t3)
      else trim t3 p fuel

/-- tree.go `delete` (lines 179-236).  Width mismatch fails with `ErrBadIP`;
a walk that falls off the tree fails with `ErrNotFound`; an exact delete of
a node that still has children clears its value (or fails with `ErrNotFound`
when there is none); otherwise the trim loop prunes upward. -/
def delete {α : Type} (t : Tree α) (key mask : List Nat) (wholeRange : Bool) :
    DelRes × Tree α :=
  if key.length ≠ mask.length then (.errBadIP, t)
  else
    match delWalk t (some t.root) (zipBits key mask) with
    | none => (.errNotFound, t)
    | some n =>
      if !wholeRange && ((getN t n).right.isSome || (getN t n).left.isSome) then
        -- keep it, just trim value
        if !(getN t n).value.isNil then (.ok, setValue t n .vnil)
        else (.errNotFound, t)
      else trim t n (t.store.length + 1)

/-- The loop of tree.go `find` (lines 245-267): at each non-nil node, a
non-nil value overwrites the remembered best match; then step by the key
bit; stop when the mask bit is clear; when the key bytes run out, the node
stepped to — if present — has its value taken unconditionally (line 262,
`value = node.value`, with no nil guard). -/
def findLoop {α : Type} (t : Tree α) : Option Nat → List (Bool × Bool) → IFace α → IFace α
  | none, _, v => v
  | some n, bits, v =>
    let v1 := if (getN t n).value.isNil then v else (getN t n).value
    match bits with
    | [] => v1
    | (kb, mb) :: rest =>
      let nxt := step t n kb
      if mb = false then v1
      else
        match rest, nxt with
        | [], some m => (getN t m).value
        | [], none => v1
        | _ :: _, _ => findLoop t nxt rest v1

/-- tree.go `find` (lines 238-269): on width mismatch the `ErrBadIP` value
is returned through the value channel; otherwise the best-match walk from
the root. -/
def find {α : Type} (t : Tree α) (key mask : List Nat) : IFace α :=
  if key.length ≠ mask.length then .errBadIP
  else findLoop t (some t.root) (zipBits key mask) .vnil

/-- The data tree.go `parsecidr` (lines 295-314) extracts from the external
`net` parsers when the input contains a `/`: the `ip.To16()` bytes of the
parsed address, the prefix size reported by `ipNet.Mask.Size()`, and whether
the text contains a dot after position 0 (`strings.IndexByte(cidr, chr) > 0`
for the dot character). -/
structure ParsedCIDR where
  ip16 : List Nat
  maskSize : Nat
  hasDot : Bool
deriving DecidableEq

/-- A textual input to the public API, abstracted to what tree.go inspects:
either there is no `/`, and `net.ParseIP(cidr).To16()` yields the given
bytes (`[]` models a failed parse, whose `To16()` is `nil`); or there is a
`/`, and `net.ParseCIDR` yields the given data (`none` models its error). -/
inductive CIDRInput where
  | bare (parseIPTo16 : List Nat)
  | withSlash (parsed : Option ParsedCIDR)
deriving DecidableEq

/-- The byte expansion of a contiguous bit mask: `k` bytes holding `ones`
leading set bits. -/
def maskBytes : Nat → Nat → List Nat
  | _, 0 => []
  | ones, k + 1 =>
    (if 8 ≤ ones then 255 else 256 - 2 ^ (8 - ones)) :: maskBytes (ones - 8) k

/-- `net.CIDRMask(ones, bits)`: `ones` leading set bits in a `bits`-bit
mask, as bytes; `nil` (here `[]`) when `ones` exceeds `bits`. -/
def cidrMask (ones bits : Nat) : List Nat :=
  if ones > bits then [] else maskBytes ones (bits / 8)

/-- `fullMask = net.CIDRMask(128, 128)` (tree.go lines 13-17). -/
def fullMask : List Nat := cidrMask 128 128

/-- tree.go `parsecidr` (lines 295-314): without a `/` the parse never
fails — even an invalid address yields `(nil, fullMask, nil)`; with a `/`,
a dotted (IPv4) input has 96 added to its prefix length and the mask is
rebuilt at 128-bit width. -/
def parsecidr (c : CIDRInput) : Option (List Nat × List Nat) :=
  match c with
  | .bare ip => some (ip, fullMask)
  | .withSlash none => none
  | .withSlash (some p) =>
      some (p.ip16, cidrMask (p.maskSize + if p.hasDot then 96 else 0) 128)

/-- tree.go `FindCIDR` (lines 108-115): parse, then return `find`'s result
paired with a `nil` error; only a `net.ParseCIDR` failure produces a
non-nil error. -/
def FindCIDR {α : Type} (t : Tree α) (c : CIDRInput) : IFace α × Option GoErr :=
  match parsecidr c with
  | none => (.vnil, some .parseError)
  | some (ip, mask) => (find t ip mask, none)

/-- tree.go `AddCIDR` (lines 55-61): parse then insert without overwrite. -/
def AddCIDR {α : Type} (t : Tree α) (c : CIDRInput) (v : IFace α) : Option GoErr × Tree α :=
  match parsecidr c with
  | none => (some .parseError, t)
  | some (ip, mask) => insert t ip mask v false

/-- tree.go `SetCIDR` (lines 68-74): parse then insert with overwrite. -/
def SetCIDR {α : Type} (t : Tree α) (c : CIDRInput) (v : IFace α) : Option GoErr × Tree α :=
  match parsecidr c with
  | none => (some .parseError, t)
  | some (ip, mask) => insert t ip mask v true

/-!
Spec-side definitions (from the spec's words, for the refinement claims):
the descent path of a lookup and the longest-match value it should return.
-/

/-- From the spec: the nodes visited by the lookup descent — start at the
root, follow the address bits, stop when there is no child to follow, the
mask bound is exhausted, or the address width is exhausted. -/
def specPath {α : Type} (t : Tree α) : Option Nat → List (Bool × Bool) → List Nat
  | none, _ => []
  | some n, [] => [n]
  | some n, (kb, mb) :: rest =>
    n :: (if mb = false then [] else specPath t (step t n kb) rest)

/-- From the spec: at a visited node, a carried (non-nil) value overwrites
the remembered best match. -/
def remember {α : Type} (t : Tree α) (a : IFace α) (i : Nat) : IFace α :=
  if (getN t i).value.isNil then a else (getN t i).value

/-- From the spec: the lookup result — the last remembered value along the
visited path, or "no match" (`vnil`) if none was ever set.  A node carries
a registered prefix exactly when its value slot is non-nil, so this is the
value of the most specific registered prefix covering the queried address. -/
def lookupSpec {α : Type} (t : Tree α) (key mask : List Nat) : IFace α :=
  (specPath t (some t.root) (zipBits key mask)).foldl (remember t) .vnil

/-- The node on which the descent ends when it consumes every bit of the
key without the mask bound stopping it and without falling off the tree
(`none` otherwise).  This is the node whose value tree.go `find` takes
unconditionally at line 262. -/
def fullDescent {α : Type} (t : Tree α) : Option Nat → List (Bool × Bool) → Option Nat
  | o, [] => o
  | none, _ :: _ => none
  | some n, (kb, mb) :: rest =>
    if mb = false then none else fullDescent t (step t n kb) rest

/-!
Concrete scenario trees used by the theorems.  Each is built through the
modelled API operations; for the larger ones an explicit store literal is
also given and proved equal to the construction, so that later proofs can
compute on the literal.
-/

/-- `NewTree(0)`. -/
def tFresh : Tree Nat := NewTree Nat 0

/-- One full-length (/8 in the 1-byte world) prefix 10/8 with value 1. -/
def tOne : Tree Nat := (insert tFresh [10] [255] (.payload 1) false).2

/-- The spec's nested scenario in a 3-byte world: P = 10.0.0/8 with value 1,
Q = 10.1.0/16 with value 2, Q strictly below P. -/
def tNest : Tree Nat :=
  (insert (insert tFresh [10, 0, 0] [255, 0, 0] (.payload 1) false).2
      [10, 1, 0] [255, 255, 0] (.payload 2) false).2

/-- The store `tNest` evaluates to: the path for the first 8 bits of 10
(nodes 1-8, value 1 at node 8), extended by the 8 bits of 1 (nodes 9-16,
value 2 at node 16). -/
def tNestLit : Tree Nat :=
  ⟨[⟨some 1, none, none, .vnil⟩,
    ⟨some 2, none, some 0, .vnil⟩,
    ⟨some 3, none, some 1, .vnil⟩,
    ⟨some 4, none, some 2, .vnil⟩,
    ⟨none, some 5, some 3, .vnil⟩,
    ⟨some 6, none, some 4, .vnil⟩,
    ⟨none, some 7, some 5, .vnil⟩,
    ⟨some 8, none, some 6, .vnil⟩,
    ⟨some 9, none, some 7, .payload 1⟩,
    ⟨some 10, none, some 8, .vnil⟩,
    ⟨some 11, none, some 9, .vnil⟩,
    ⟨some 12, none, some 10, .vnil⟩,
    ⟨some 13, none, some 11, .vnil⟩,
    ⟨some 14, none, some 12, .vnil⟩,
    ⟨some 15, none, some 13, .vnil⟩,
    ⟨none, some 16, some 14, .vnil⟩,
    ⟨none, none, some 15, .payload 2⟩],
   0, none, 17, 200⟩

/-- A /2 covering prefix with value 1 (bits 0,0 of address byte 10). -/
def tShallow : Tree Nat := (insert tFresh [10] [192] (.payload 1) false).2

/-- `tShallow` with the full-length prefix 10/8 additionally inserted with a
nil value: the configuration that defeats the longest-match claim. -/
def tNilDeep : Tree Nat := (insert tShallow [10] [255] .vnil false).2

/-- `tShallow` with the /7 prefix of 10 additionally inserted with a nil
value (a nil registration that is not at full key depth). -/
def tNilMid : Tree Nat := (insert tShallow [10] [254] .vnil false).2

/-- Two nested registered prefixes in the 1-byte world: the /2 above 10
with value 1 and the full /8 for 10 with value 2. -/
def tTwo : Tree Nat :=
  (insert tShallow [10] [255] (.payload 2) false).2

end NRadix

namespace NRadix

/-!
Helper lemmas (shared; none of these is a claim's theorem).
-/

theorem getD_set_same {β : Type} (b : β) (l : List β) (i : Nat) :
    (l.set i b)[i]?.getD b = b := by
  rw [List.getElem?_set_self']
  cases l[i]? <;> rfl

theorem getD_append_len {β : Type} (b : β) (l : List β) (d : β) :
    (l ++ [b])[l.length]?.getD d = b := by
  rw [List.getElem?_concat_length]
  rfl

theorem zipBits_ne_nil (key mask : List Nat) (hk : key ≠ [])
    (hm : mask ≠ []) : zipBits key mask ≠ [] := by
  cases key with
  | nil => exact absurd rfl hk
  | cons a as =>
    cases mask with
    | nil => exact absurd rfl hm
    | cons b bs => simp [zipBits, byteBits]

/-- The walk of `find`, away from the top call, computed against the
spec-side descent: if the descent consumes every bit and ends on a node,
that node's value is the result; otherwise the result is the fold of
`remember` over the visited path. -/
theorem findLoop_full {α : Type} (t : Tree α) :
    ∀ (bits : List (Bool × Bool)) (n m : Nat) (v : IFace α), bits ≠ [] →
      fullDescent t (some n) bits = some m →
      findLoop t (some n) bits v = (getN t m).value := by
  intro bits
  induction bits with
  | nil => intro n m v h; exact absurd rfl h
  | cons hd rest ih =>
    intro n m v _ hfd
    obtain ⟨kb, mb⟩ := hd
    cases mb with
    | false => simp [fullDescent] at hfd
    | true =>
      cases hnx : step t n kb with
      | none =>
        cases rest with
        | nil => simp [fullDescent, hnx] at hfd
        | cons r rs => simp [fullDescent, hnx] at hfd
      | some m1 =>
        cases rest with
        | nil =>
          simp [fullDescent, hnx] at hfd
          subst hfd
          simp [findLoop, hnx]
        | cons r rs =>
          have h1 : fullDescent t (some m1) (r :: rs) = some m := by
            simpa [fullDescent, hnx] using hfd
          have h2 := ih m1 m
            (if (getN t n).value.isNil then v else (getN t n).value)
            (by simp) h1
          simpa [findLoop, hnx] using h2

theorem findLoop_fold {α : Type} (t : Tree α) :
    ∀ (bits : List (Bool × Bool)) (n : Nat) (v : IFace α), bits ≠ [] →
      fullDescent t (some n) bits = none →
      findLoop t (some n) bits v =
        (specPath t (some n) bits).foldl (remember t) v := by
  intro bits
  induction bits with
  | nil => intro n v h; exact absurd rfl h
  | cons hd rest ih =>
    intro n v _ hfd
    obtain ⟨kb, mb⟩ := hd
    cases mb with
    | false => simp [findLoop, specPath, remember]
    | true =>
      cases hnx : step t n kb with
      | none =>
        cases rest with
        | nil => simp [findLoop, specPath, remember, hnx]
        | cons r rs => simp [findLoop, specPath, remember, hnx, findLoop]
      | some m1 =>
        cases rest with
        | nil => simp [fullDescent, hnx] at hfd
        | cons r rs =>
          have h1 : fullDescent t (some m1) (r :: rs) = none := by
            simpa [fullDescent, hnx] using hfd
          have h2 := ih m1
            (if (getN t n).value.isNil then v else (getN t n).value)
            (by simp) h1
          simp [findLoop, specPath, remember, hnx]
          simpa [remember] using h2

/-- `tNest` evaluates to the explicit store `tNestLit`. -/
theorem tNest_eq : tNest = tNestLit := by decide

/-!
Claim theorems.
-/

/-- Claim C1, counterexample: in `tNilDeep` the /2 prefix above 10 is
registered with value 1 (node 2) and covers the address 10, so the claim
says the lookup of 10 must return 1 (`lookupSpec`, the spec-side
longest-match value, does); but `find` returns nil, because the full-depth
node inserted with a nil value overwrites the remembered match
unconditionally at tree.go line 262. -/
theorem find_not_longest_match :
    lookupSpec tNilDeep [10] [255] = .payload 1 ∧
    (getN tNilDeep 2).value = .payload 1 ∧
    find tNilDeep [10] [255] = .vnil := by decide

/-- Claim C1, amended: for every tree state and query of equal byte widths,
`find` returns the value of the most specific registered (non-nil-valued)
prefix covering the address — the fold of the spec's "remember the value of
every visited valued node" rule over the descent path, nil when none —
except that when the descent consumes the entire key and ends on an
existing node, that node's value is returned unconditionally, even when it
is nil. -/
theorem find_longest_match_amended {α : Type} (t : Tree α) (key mask : List Nat)
    (hlen : key.length = mask.length) (hne : key ≠ []) :
    find t key mask =
      match fullDescent t (some t.root) (zipBits key mask) with
      | some m => (getN t m).value
      | none => lookupSpec t key mask := by
  have hmne : mask ≠ [] := by
    intro h
    subst h
    exact hne (List.length_eq_zero.mp hlen)
  have hb : zipBits key mask ≠ [] := zipBits_ne_nil key mask hne hmne
  unfold find
  have hc : ¬key.length ≠ mask.length := fun h => h hlen
  rw [if_neg hc]
  cases hfd : fullDescent t (some t.root) (zipBits key mask) with
  | some m => simp [findLoop_full t _ t.root m .vnil hb hfd]
  | none => simpa [lookupSpec] using findLoop_fold t _ t.root .vnil hb hfd

/-- Witness for the amended claim C1 at a concrete tree and query. -/
theorem find_longest_match_amended_witness :
    (([10] : List Nat).length = ([255] : List Nat).length ∧ ([10] : List Nat) ≠ []) ∧
    find tOne [10] [255] =
      match fullDescent tOne (some tOne.root) (zipBits [10] [255]) with
      | some m => (getN tOne m).value
      | none => lookupSpec tOne [10] [255] :=
  ⟨⟨rfl, by decide⟩, find_longest_match_amended tOne [10] [255] rfl (by decide)⟩

/-- Claim C4: if the insert walk reaches an existing node (Go `next != nil`)
whose value slot is occupied, then insert without overwrite (`AddCIDR`)
fails with `ErrNodeBusy` and returns the tree unchanged, while insert with
overwrite (`SetCIDR`) succeeds and only replaces that node's value. -/
theorem insert_conflict_policy {α : Type} (t : Tree α) (key mask : List Nat)
    (v : IFace α) (n : Nat) (rest : List (Bool × Bool))
    (hlen : key.length = mask.length)
    (hw : walkTo t t.root (zipBits key mask) = (n, rest, false))
    (hv : (getN t n).value.isNil = false) :
    insert t key mask v false = (some .nodeBusy, t) ∧
    insert t key mask v true = (none, setValue t n v) := by
  unfold insert
  have hc : ¬key.length ≠ mask.length := fun h => h hlen
  rw [if_neg hc, hw]
  simp [hv, hlen]

/-- Claim C5: in the nested scenario (P = 10.0.0/8 value 1 at node 8,
Q = 10.1.0/16 value 2 at node 16, both registered), the exact delete of P
succeeds and changes nothing but P's value slot; afterwards every address
under Q still finds Q's value, and addresses under P but outside Q find
nothing. -/
theorem delete_exact_preserves_descendants :
    (getN tNest 8).value = .payload 1 ∧
    (getN tNest 16).value = .payload 2 ∧
    delete tNest [10, 0, 0] [255, 0, 0] false = (.ok, setValue tNest 8 .vnil) ∧
    (∀ z, z < 256 →
      find (delete tNest [10, 0, 0] [255, 0, 0] false).2 [10, 1, z] [255, 255, 255] =
        .payload 2) ∧
    (∀ y, y < 256 → y ≠ 1 →
      find (delete tNest [10, 0, 0] [255, 0, 0] false).2 [10, y, 0] [255, 255, 255] =
        .vnil) ∧
    (∀ z, z < 256 →
      find (delete tNest [10, 0, 0] [255, 0, 0] false).2 [10, 2, z] [255, 255, 255] =
        .vnil) := by
  rw [tNest_eq]
  decide

/-- Witness for claim C5 at concrete addresses. -/
theorem delete_exact_preserves_descendants_witness :
    ((7 : Nat) < 256 ∧ (2 : Nat) < 256 ∧ (2 : Nat) ≠ 1) ∧
    find (delete tNest [10, 0, 0] [255, 0, 0] false).2 [10, 1, 7] [255, 255, 255] =
      .payload 2 ∧
    find (delete tNest [10, 0, 0] [255, 0, 0] false).2 [10, 2, 0] [255, 255, 255] =
      .vnil :=
  ⟨⟨by decide, by decide, by decide⟩,
    delete_exact_preserves_descendants.2.2.2.1 7 (by decide),
    delete_exact_preserves_descendants.2.2.2.2.1 2 (by decide) (by decide)⟩

/-- Claim C6: in the same nested scenario, the whole-range delete of P
succeeds, detaches P's node with its entire subtree (the root ends up with
no children), leaves the abandoned descendant's value slot untouched
(node 16 still holds 2 even though it is unreachable), and afterwards every
address under P finds nothing. -/
theorem delete_whole_range_removes_subtree :
    (delete tNest [10, 0, 0] [255, 0, 0] true).1 = .ok ∧
    getN (delete tNest [10, 0, 0] [255, 0, 0] true).2 0 = blank ∧
    (getN (delete tNest [10, 0, 0] [255, 0, 0] true).2 16).value = .payload 2 ∧
    (∀ y, y < 256 →
      find (delete tNest [10, 0, 0] [255, 0, 0] true).2 [10, y, 0] [255, 255, 255] =
        .vnil) ∧
    (∀ y, y < 256 →
      find (delete tNest [10, 0, 0] [255, 0, 0] true).2 [10, y, 255] [255, 255, 255] =
        .vnil) ∧
    (∀ z, z < 256 →
      find (delete tNest [10, 0, 0] [255, 0, 0] true).2 [10, 1, z] [255, 255, 255] =
        .vnil) := by
  rw [tNest_eq]
  decide

/-- Witness for claim C6 at concrete addresses. -/
theorem delete_whole_range_removes_subtree_witness :
    ((1 : Nat) < 256 ∧ (137 : Nat) < 256) ∧
    find (delete tNest [10, 0, 0] [255, 0, 0] true).2 [10, 1, 0] [255, 255, 255] = .vnil ∧
    find (delete tNest [10, 0, 0] [255, 0, 0] true).2 [10, 1, 137] [255, 255, 255] = .vnil :=
  ⟨⟨by decide, by decide⟩,
    delete_whole_range_removes_subtree.2.2.2.1 1 (by decide),
    delete_whole_range_removes_subtree.2.2.2.2.2 137 (by decide)⟩

/-- Claim C7: the `NotFound` cases of delete hold on the walk-failure and
re-delete scenarios (clauses 1-4), but the claim's "reached node carries no
value" case is broken by the code at the zero-length prefix: an exact
delete with an all-zero mask on a fresh tree reaches the root, which
carries no value, and instead of returning `NotFound` the trim loop
dereferences the root's nil parent (clause 5, tree.go line 215). -/
theorem delete_notfound_cases_and_zero_mask_panic :
    delete tFresh [10] [255] false = (.errNotFound, tFresh) ∧
    delete tTwo [11] [255] false = (.errNotFound, tTwo) ∧
    (delete (delete tOne [10] [255] false).2 [10] [255] false).1 = .errNotFound ∧
    ((delete tTwo [10] [192] false).1 = .ok ∧
      (delete (delete tTwo [10] [192] false).2 [10] [192] false).1 = .errNotFound) ∧
    delete tFresh (List.replicate 16 0) (List.replicate 16 0) false =
      (.panicNilParent, tFresh) := by decide

/-- Claim C2: the root is the node the fresh tree's walk of a zero-length
prefix ends at; a whole-range delete there makes the reference code
dereference the root's nil parent (tree.go line 215) instead of leaving the
root in place — the claim's "never deleted, never recycled" promise is
right and the code slips.  For nonzero prefixes the promise holds: a full
prune back from 10/8 leaves the parentless root in place, cleared but not
on the free list. -/
theorem delete_at_root_nil_parent_panic :
    delete tFresh (List.replicate 16 0) (List.replicate 16 0) true =
      (.panicNilParent, tFresh) ∧
    ((delete tOne [10] [255] false).1 = .ok ∧
      (delete tOne [10] [255] false).2.root = 0 ∧
      getN (delete tOne [10] [255] false).2 0 = blank ∧
      (delete tOne [10] [255] false).2.free = some 1 ∧
      (delete tOne [10] [255] false).2.store.length = 9) := by decide

/-- Claim C10: a nil payload is invisible at the interface.  Inserting the
/7 prefix of 10 with a nil value succeeds; a lookup of 10 then falls
through to the shallower /2 prefix's value (or to "no match" when there is
no shallower registration); and re-adding the same /7 prefix succeeds with
no `NodeBusy`, storing the new value at the same node 7. -/
theorem nil_value_indistinguishable_from_absent :
    (insert tShallow [10] [254] .vnil false).1 = none ∧
    find tNilMid [10] [255] = .payload 1 ∧
    find (insert tFresh [10] [254] .vnil false).2 [10] [255] = .vnil ∧
    (insert tNilMid [10] [254] (.payload 3) false).1 = none ∧
    (getN (insert tNilMid [10] [254] (.payload 3) false).2 7).value = .payload 3 := by
  decide

/-- Claim C3: on a width mismatch the reference code does not return a
non-nil error: `find` hands the `ErrBadIP` marker back through the value
channel and `FindCIDR` pairs it with a nil error.  Clause 1 is the
syntactically invalid bare address (no `/`), whose failed parse yields no
address bytes against the 16-byte full mask; clause 2 is a dotted input
whose shifted prefix length exceeds 128, so `net.CIDRMask` yields no mask
bytes. -/
theorem findcidr_width_mismatch_marker_with_nil_error :
    (∀ (α : Type) (t : Tree α), FindCIDR t (.bare []) = (.errBadIP, none)) ∧
    (∀ (α : Type) (t : Tree α),
      FindCIDR t (.withSlash (some ⟨List.replicate 16 0, 120, true⟩)) =
        (.errBadIP, none)) :=
  ⟨fun _ _ => rfl, fun _ _ => rfl⟩

/-- Claim C9: `NewTree` ignores its preallocation hint — the resulting tree
is identical for every argument, and only the single root node is in the
store. -/
theorem newtree_preallocate_no_effect (α : Type) (p : Int) :
    NewTree α p = NewTree α 0 ∧ (NewTree α p).store.length = 1 := by
  constructor <;> simp [NewTree, newnode]

/-- Claim C8: every node handed out by `newnode` has all links and value
cleared, whether popped from the free list or fresh from the chunk
(clause 1); when the free list is non-empty `newnode` pops its head and
does not grow the store, and the new free head is the popped node's `right`
link (clause 2); and a node recycled by delete is the one the next
`newnode` call returns (clause 3: after pruning 10/8 the free head is
node 1, and `newnode` hands back exactly node 1, cleared, with no growth). -/
theorem newnode_allocator_contract :
    (∀ (α : Type) (t : Tree α), getN (newnode t).1 (newnode t).2 = blank) ∧
    (∀ (α : Type) (t : Tree α) (p : Nat), t.free = some p →
      (newnode t).2 = p ∧
      (newnode t).1.store.length = t.store.length ∧
      (newnode t).1.free = (getN t p).right) ∧
    ((delete tOne [10] [255] false).2.free = some 1 ∧
      (newnode (delete tOne [10] [255] false).2).2 = 1 ∧
      getN (newnode (delete tOne [10] [255] false).2).1 1 = blank ∧
      (newnode (delete tOne [10] [255] false).2).1.store.length =
        (delete tOne [10] [255] false).2.store.length ∧
      (newnode (delete tOne [10] [255] false).2).1.free = some 2) := by
  refine ⟨?_, ?_, by decide⟩
  · intro α t
    unfold newnode
    match h : t.free with
    | some p => simp [getN, getD_set_same]
    | none =>
      by_cases hc : t.allocLen = t.allocCap <;>
        simp [hc, getN, getD_append_len]
  · intro α t p h
    unfold newnode
    rw [h]
    exact ⟨rfl, by simp, rfl⟩

/-- Witness for clause 2 of claim C8 at a concrete tree with a non-empty
free list. -/
theorem newnode_allocator_contract_witness :
    (delete tOne [10] [255] false).2.free = some 1 ∧
    ((newnode (delete tOne [10] [255] false).2).2 = 1 ∧
      (newnode (delete tOne [10] [255] false).2).1.store.length =
        (delete tOne [10] [255] false).2.store.length ∧
      (newnode (delete tOne [10] [255] false).2).1.free =
        (getN (delete tOne [10] [255] false).2 1).right) :=
  ⟨by decide,
    newnode_allocator_contract.2.1 Nat (delete tOne [10] [255] false).2 1 (by decide)⟩

/-- Witness for claim C4: re-adding the registered 10/8 in `tOne` is busy
and leaves the tree unchanged; setting it overwrites node 8's value. -/
theorem insert_conflict_policy_witness :
    (([10] : List Nat).length = ([255] : List Nat).length ∧
      walkTo tOne tOne.root (zipBits [10] [255]) = (8, [], false) ∧
      (getN tOne 8).value.isNil = false) ∧
    (insert tOne [10] [255] (.payload 9) false = (some .nodeBusy, tOne) ∧
      insert tOne [10] [255] (.payload 9) true = (none, setValue tOne 8 (.payload 9))) :=
  ⟨⟨rfl, by decide, by decide⟩,
    insert_conflict_policy tOne [10] [255] (.payload 9) 8 [] rfl (by decide) (by decide)⟩

end NRadix
